import Mathlib

/-!
Shallow embedding of `gpage.h` (gcpp): a fixed-size page allocator over one
byte buffer, with two parallel bitmaps (`inuse`, `starts`, held as
`std::vector<bool>`) and a cached request bound (`current_known_request_bound`,
a `size_t`).

Modelling conventions:
* Pointers are byte offsets from `&storage[0]`.  The storage base address is
  assumed maximally aligned, which matches the code's own
  `assert(i == 0 && "temporary debug check ...")` after the `std::align` call:
  with an aligned base, `std::align(alignof(T), bytes, start, space)` leaves
  `aligned_start == &storage[0]` and fails exactly when `bytes > total_size`.
* `std::size_t` arithmetic is modelled with `Nat`.  The one subtraction that
  can underflow on reachable states (`current_known_request_bound -=
  min_alloc * locations_needed`) is modelled with explicit wrap-around
  modulo 2^64 (`sub64`), as is the `start - 1` in `contains` (whose underflow
  is only reachable when the code's own assertion would have fired).
* The C++ loops are written as structurally recursive functions with an
  explicit iteration budget ("fuel").  Each budget given at the call site is
  an upper bound on the number of iterations the C++ loop can perform
  (each iteration strictly increases the loop counter towards the bound),
  so the fuelled function and the loop agree on every input.
* `template<class T>` parameters appear as explicit numbers `sizeT`
  (`sizeof(T)`), `alignT` (`alignof(T)`).  In C++, `sizeof(T) >= 1`.
* Uninitialized storage bytes are a function `Nat → Nat` supplied to the
  constructor; no member function ever reads or writes them, matching the
  code (allocate/deallocate/contains only touch the bitmaps and the bound).
* `deallocate`'s `if (p == nullptr) return;` guard is not modelled: a null
  pointer is not an offset into storage, and every claim concerns pointers
  previously returned by `allocate`.
-/

/-- 2^64, the modulus of `std::size_t` arithmetic on the reference platform. -/
def W64 : Nat := 2 ^ 64

/-- Wrap-around (`std::size_t`) subtraction modulo 2^64. -/
def sub64 (a b : Nat) : Nat := (W64 + a % W64 - b % W64) % W64

/-- Result discriminator of `gpage::contains` (enum `gpage_find_result`). -/
inductive gpage_find_result where
  | not_in_range
  | in_range_unallocated
  | in_range_allocated_middle
  | in_range_allocated_start
deriving DecidableEq, Repr

/-- Return value of `gpage::contains` (struct `contains_ret`). -/
structure contains_ret where
  found : gpage_find_result
  location : Nat
  start_location : Nat
deriving DecidableEq, Repr

/-- The page state: the `gpage` class members.  `storage` holds the byte
contents (never touched by the modelled operations); pointers are byte
offsets from its base. -/
structure gpage where
  total_size : Nat
  min_alloc : Nat
  storage : Nat → Nat
  inuse : List Bool
  starts : List Bool
  current_known_request_bound : Nat

/-- `gpage::locations()`: `total_size / min_alloc`. -/
def gpage.locations (g : gpage) : Nat := g.total_size / g.min_alloc

/-- The constructor `gpage::gpage(total_size_, min_alloc_)`: rounds
`total_size_` up to a multiple of `min_alloc_`, makes both bitmaps with
`total_size` entries (the code passes `total_size`, not `locations()`, to the
`std::vector<bool>` constructors), and sets the bound to `total_size`.
`mem` stands for the uninitialized bytes of `new byte[total_size]`. -/
def gpage.make (total_size_ min_alloc_ : Nat) (mem : Nat → Nat) : gpage :=
  let ts := total_size_ +
    (if total_size_ % min_alloc_ > 0 then min_alloc_ - total_size_ % min_alloc_ else 0)
  { total_size := ts
    min_alloc := min_alloc_
    storage := mem
    inuse := List.replicate ts false
    starts := List.replicate ts false
    current_known_request_bound := ts }

/-- The inner `for (j = 0; j < locations_needed; ++j)` probe of
`gpage::allocate`: first offset `j < n` with `inuse[i + j]` set, if any.
Recursion is on the number `n` of slots left to probe. -/
def probeRun : List Bool → Nat → Nat → Option Nat
  | _, _, 0 => none
  | l, i, n + 1 =>
    if l.getD i false then some 0
    else (probeRun l (i + 1) n).map (fun j => j + 1)

/-- The outer candidate scan of `gpage::allocate`
(`for (; i < end; i += locations_step)` with the skip-ahead `i += j` on a
failed probe).  `stepm1` is `locations_step - 1` (the code's step is
`1 + (alignof(T)-1)/min_alloc`, always at least 1).  Each iteration moves
`i` up by at least 1, so `fuel = end_` at the call site (with `i = 0`) covers
every iteration the C++ loop can perform. -/
def scanLoop (inuse : List Bool) (needed stepm1 end_ : Nat) : Nat → Nat → Option Nat
  | _, 0 => none
  | i, fuel + 1 =>
    if i < end_ then
      match probeRun inuse i needed with
      | none => some i
      | some j => scanLoop inuse needed stepm1 end_ (i + j + (stepm1 + 1)) fuel
    else none

/-- `std::fill(inuse.begin() + i, inuse.begin() + i + n, true)`. -/
def setRange : List Bool → Nat → Nat → List Bool
  | l, _, 0 => l
  | l, i, n + 1 => setRange (l.set i true) (i + 1) n

/-- `gpage::allocate<T>(num)` with `sizeT = sizeof(T)`, `alignT = alignof(T)`.
Returns the byte offset of the allocation (for `T*`) and the new state. -/
def gpage.allocate (g : gpage) (sizeT alignT num : Nat) : Option Nat × gpage :=
  let bytes_needed := sizeT * num
  -- if (bytes_needed > current_known_request_bound) return nullptr;
  if g.current_known_request_bound < bytes_needed then (none, g)
  -- std::align on the (aligned) base fails iff the bytes do not fit at all
  else if g.total_size < bytes_needed then (none, g)
  else
    let stepm1 := (alignT - 1) / g.min_alloc
    let locations_needed := (1 + (bytes_needed - 1) / g.min_alloc) + (if 1 < num then 1 else 0)
    -- const auto end = locations() - locations_needed + 1; (size_t arithmetic:
    -- for every reachable request locations_needed <= locations() + 1, and
    -- locations() - locations_needed + 1 equals locations() + 1 - locations_needed)
    let end_ := g.locations + 1 - locations_needed
    match scanLoop g.inuse locations_needed stepm1 end_ 0 end_ with
    | none =>
      (none, { g with
                 current_known_request_bound :=
                   min g.current_known_request_bound (bytes_needed - 1) })
    | some i =>
      (some (i * g.min_alloc),
       { g with
           starts := g.starts.set i true
           inuse := setRange g.inuse i locations_needed
           current_known_request_bound :=
             sub64 g.current_known_request_bound (g.min_alloc * locations_needed) })

/-- The backward scan in `gpage::contains`:
`while (start > 0 && !starts[start - 1]) --start;` returning the final
`start`, beginning from `where`. -/
def findStart (starts : List Bool) : Nat → Nat
  | 0 => 0
  | s + 1 => if starts.getD s false then s + 1 else findStart starts s

/-- `gpage::contains<T>(p)`, with `p` the signed byte offset of the pointer
from `&storage[0]` (an `Int`, since pointers below the base are in range of
the C++ comparison and classified `not_in_range`). -/
def gpage.contains (g : gpage) (p : Int) : contains_ret :=
  if 0 ≤ p ∧ p < (g.total_size : Int) - 1 then
    let w := p.toNat / g.min_alloc
    if g.inuse.getD w false = false then
      ⟨.in_range_unallocated, w, 0⟩
    else if g.starts.getD w false = false then
      ⟨.in_range_allocated_middle, w, sub64 (findStart g.starts w) 1⟩
    else
      ⟨.in_range_allocated_start, w, w⟩
  else
    ⟨.not_in_range, 0, 0⟩

/-- `gpage::location_info(where)`: `(starts[where], byte offset of the slot)`. -/
def gpage.location_info (g : gpage) (w : Nat) : Bool × Nat :=
  (g.starts.getD w false, w * g.min_alloc)

/-- The `for (; next_start < locations(); ++next_start)` scan of
`gpage::deallocate`: first index `k' ≥ k` below `locs` with `starts[k']`
set, else the first index `≥ k` not below `locs` (i.e. `max k locs`).
`fuel = locs` at the call site covers every iteration. -/
def findNextStartAux (starts : List Bool) (locs : Nat) : Nat → Nat → Nat
  | k, 0 => k
  | k, fuel + 1 =>
    if k < locs then
      if starts.getD k false then k else findNextStartAux starts locs (k + 1) fuel
    else k

/-- The clearing loop of `gpage::deallocate`:
`while (here < next_start && inuse[here]) { inuse[here] = false; ++here; }`.
`fuel = stop` at the call site covers every iteration. -/
def clearRunAux : List Bool → Nat → Nat → Nat → List Bool
  | l, _, _, 0 => l
  | l, stop, h, fuel + 1 =>
    if h < stop ∧ l.getD h false = true then clearRunAux (l.set h false) stop (h + 1) fuel
    else l

/-- `gpage::deallocate<T>(p)` with `p` the byte offset of the pointer.  The
debug assertions (in range, a recorded start, in use) are no-ops in release
builds; the function proceeds as the code does after them. -/
def gpage.deallocate (g : gpage) (p : Nat) : gpage :=
  let here := p / g.min_alloc
  let starts' := g.starts.set here false
  let next_start := findNextStartAux starts' g.locations (here + 1) g.locations
  let bytes_unallocated_here := (next_start - here) * g.min_alloc
  { g with
      starts := starts'
      current_known_request_bound :=
        max g.current_known_request_bound bytes_unallocated_here
      inuse := clearRunAux g.inuse next_start here next_start }

/-- Number of slots `gpage::allocate` reserves for `num` elements of total
byte size `sizeT * num` on page `g` (`locations_needed` in the code):
enough slots to cover the bytes, plus one sentinel slot for arrays. -/
def neededSlots (g : gpage) (sizeT num : Nat) : Nat :=
  (1 + (sizeT * num - 1) / g.min_alloc) + (if 1 < num then 1 else 0)

/-- A fresh `gpage(16, 4)`: 4 slots of 4 bytes. -/
def page16 : gpage := gpage.make 16 4 (fun _ => 0)

/-- A fresh `gpage(1024, 4)`: 256 slots of 4 bytes (the default page). -/
def page1024 : gpage := gpage.make 1024 4 (fun _ => 0)

/-- `page16` after two 4-byte, align-4 allocations (slots 0 and 1 in use,
both marked as starts). -/
def page16AB : gpage := ((page16.allocate 4 4 1).2.allocate 4 4 1).2

/-- `page16AB` after deallocating the first allocation: slot 0 free,
slot 1 in use, slots 2 and 3 free. -/
def page16Hole : gpage := page16AB.deallocate 0

/-- `page16AB` after a failed allocation of 2 elements of size 3 (6 bytes,
3 slots needed, no room), which tightens the bound cache to 5. -/
def page16Tight : gpage := (page16AB.allocate 3 1 2).2

/-- `page1024` after two 4-byte, align-4 allocations (slots 0 and 1 in use). -/
def page1024AB : gpage := ((page1024.allocate 4 4 1).2.allocate 4 4 1).2

/-- `page1024AB` after deallocating the first allocation: slot 0 free,
slot 1 in use, the rest free. -/
def page1024Hole : gpage := page1024AB.deallocate 0

/-- First step of the spec's walked scenario: allocate 1 object of 8 bytes,
align 4, on a fresh `gpage(1024, 4)`. -/
def scenarioStep1 : Option Nat × gpage := page1024.allocate 8 4 1

/-- Second step of the spec's walked scenario: allocate an array of 10
objects of 4 bytes, align 4. -/
def scenarioStep2 : Option Nat × gpage := scenarioStep1.2.allocate 4 4 10

/-- Third step of the spec's walked scenario: deallocate the first pointer
(byte offset 0). -/
def scenarioStep3 : gpage := scenarioStep2.2.deallocate 0

/-- The invariant claimed by the spec, stated pointwise: `starts ⇒ inuse`,
and an in-use slot carries a start bit exactly when it is the first slot of
its maximal contiguous in-use run. -/
def claimedRunInv (g : gpage) : Prop :=
  (∀ i, i < g.locations → g.starts.getD i false = true → g.inuse.getD i false = true) ∧
  (∀ i, i < g.locations → g.inuse.getD i false = true →
    (g.starts.getD i false = true ↔ (i = 0 ∨ g.inuse.getD (i - 1) false = false)))

instance (g : gpage) : Decidable (claimedRunInv g) := by
  unfold claimedRunInv; infer_instance

/-- The invariant the code actually maintains: `starts ⇒ inuse`, and the
first slot of every maximal contiguous in-use run carries a start bit
(further start bits inside a run mark adjacent allocations). -/
def runInv (g : gpage) : Prop :=
  (∀ i, i < g.locations → g.starts.getD i false = true → g.inuse.getD i false = true) ∧
  (∀ i, i < g.locations → g.inuse.getD i false = true →
    (i = 0 ∨ g.inuse.getD (i - 1) false = false) → g.starts.getD i false = true)

instance (g : gpage) : Decidable (runInv g) := by
  unfold runInv; infer_instance

/-- `n` is the index `gpage::deallocate` calls `next_start` for a
deallocation at slot `here`: the nearest strictly-later slot with a start
bit, or the slot count if there is none. -/
def IsNextStart (starts : List Bool) (locs here n : Nat) : Prop :=
  here < n ∧ n ≤ locs ∧ (n = locs ∨ starts.getD n false = true) ∧
  (∀ m, m < n → here < m → starts.getD m false = false)

instance (starts : List Bool) (locs here n : Nat) :
    Decidable (IsNextStart starts locs here n) := by
  unfold IsNextStart; infer_instance

/-! Helper lemmas about `List.getD`, `List.set`, and the loop functions. -/

theorem getD_set_self : ∀ (l : List Bool) (i : Nat) (v : Bool), i < l.length →
    (l.set i v).getD i false = v
  | [], i, _, h => absurd h (by simp)
  | _ :: _, 0, _, _ => rfl
  | _ :: t, i + 1, v, h => by
      simpa using getD_set_self t i v (by simpa using h)

theorem getD_set_ne : ∀ (l : List Bool) (i j : Nat) (v : Bool), i ≠ j →
    (l.set i v).getD j false = l.getD j false
  | [], _, _, _, _ => rfl
  | _ :: _, 0, 0, _, h => absurd rfl h
  | _ :: _, 0, _ + 1, _, _ => rfl
  | _ :: _, _ + 1, 0, _, _ => rfl
  | _ :: t, i + 1, j + 1, v, h => by
      simpa using getD_set_ne t i j v (fun e => h (by omega))

theorem getD_replicate_false : ∀ (n t : Nat), (List.replicate n false).getD t false = false
  | 0, _ => rfl
  | _ + 1, 0 => rfl
  | n + 1, t + 1 => getD_replicate_false n t

theorem getD_eq_false_of_len : ∀ (l : List Bool) (t : Nat), l.length ≤ t →
    l.getD t false = false
  | [], _, _ => rfl
  | _ :: _, 0, h => absurd h (by simp)
  | _ :: l, t + 1, h => by simpa using getD_eq_false_of_len l t (by simpa using h)

theorem lt_length_of_getD_true {l : List Bool} {t : Nat} (h : l.getD t false = true) :
    t < l.length := by
  by_contra hc
  rw [getD_eq_false_of_len l t (by omega)] at h
  exact Bool.false_ne_true h

theorem length_setRange : ∀ (n : Nat) (l : List Bool) (i : Nat),
    (setRange l i n).length = l.length
  | 0, _, _ => rfl
  | n + 1, l, i => by
      rw [setRange, length_setRange n]
      exact l.length_set i true

theorem getD_setRange_out : ∀ (n : Nat) (l : List Bool) (i t : Nat),
    t < i ∨ i + n ≤ t → (setRange l i n).getD t false = l.getD t false
  | 0, _, _, _, _ => rfl
  | n + 1, l, i, t, h => by
      rw [setRange, getD_setRange_out n _ _ _ (by omega)]
      exact getD_set_ne l i t true (by omega)

theorem getD_setRange_in : ∀ (n : Nat) (l : List Bool) (i t : Nat),
    i ≤ t → t < i + n → t < l.length → (setRange l i n).getD t false = true
  | 0, _, _, _, h1, h2, _ => absurd (lt_of_le_of_lt h1 h2) (by omega)
  | n + 1, l, i, t, h1, h2, h3 => by
      rw [setRange]
      by_cases he : t = i
      · rw [getD_setRange_out n _ _ _ (by omega), he]
        exact getD_set_self l i true (he ▸ h3)
      · exact getD_setRange_in n _ _ _ (by omega) (by omega)
          (by rw [l.length_set]; exact h3)

theorem getD_setRange_true {l : List Bool} {t : Nat} (h : l.getD t false = true)
    (i n : Nat) : (setRange l i n).getD t false = true := by
  by_cases hin : i ≤ t ∧ t < i + n
  · exact getD_setRange_in n l i t hin.1 hin.2 (lt_length_of_getD_true h)
  · rw [getD_setRange_out n l i t (by omega)]; exact h

theorem getD_setRange_false {l : List Bool} {i n t : Nat}
    (h : (setRange l i n).getD t false = false) : l.getD t false = false := by
  cases hl : l.getD t false with
  | false => rfl
  | true => rw [getD_setRange_true hl i n] at h; exact absurd h (by simp)

theorem probeRun_eq_none : ∀ (n : Nat) (l : List Bool) (i : Nat),
    probeRun l i n = none ↔ ∀ j, j < n → l.getD (i + j) false = false
  | 0, l, i => by simp [probeRun]
  | n + 1, l, i => by
      rw [probeRun]
      by_cases hl : l.getD i false = true
      · rw [if_pos hl]
        constructor
        · intro h; exact absurd h (by simp)
        · intro h
          have h0 := h 0 (by omega)
          rw [Nat.add_zero, hl] at h0
          exact absurd h0 (by simp)
      · rw [if_neg hl]
        have hl' : l.getD i false = false := by
          cases hv : l.getD i false
          · rfl
          · exact absurd hv hl
        rw [Option.map_eq_none', probeRun_eq_none n l (i + 1)]
        constructor
        · intro h j hj
          cases j with
          | zero => simpa using hl'
          | succ j' =>
            have := h j' (by omega)
            rw [show i + 1 + j' = i + (j' + 1) by omega] at this
            exact this
        · intro h j hj
          have := h (j + 1) (by omega)
          rw [show i + (j + 1) = i + 1 + j by omega] at this
          exact this

theorem scanLoop_eq_some {inuse : List Bool} {needed stepm1 end_ : Nat} :
    ∀ (fuel i r : Nat), scanLoop inuse needed stepm1 end_ i fuel = some r →
      i ≤ r ∧ r < end_ ∧ ∀ j, j < needed → inuse.getD (r + j) false = false
  | 0, i, r, h => absurd h (by simp [scanLoop])
  | fuel + 1, i, r, h => by
      rw [scanLoop] at h
      by_cases hi : i < end_
      · rw [if_pos hi] at h
        cases hp : probeRun inuse i needed with
        | none =>
          rw [hp] at h
          have : i = r := by simpa using h
          subst this
          exact ⟨le_refl i, hi, (probeRun_eq_none needed inuse i).mp hp⟩
        | some j =>
          rw [hp] at h
          have := scanLoop_eq_some fuel _ r h
          exact ⟨by omega, this.2.1, this.2.2⟩
      · rw [if_neg hi] at h
        exact absurd h (by simp)

theorem findNextStartAux_spec (starts : List Bool) (locs : Nat) :
    ∀ (fuel k : Nat), locs ≤ k + fuel →
      k ≤ findNextStartAux starts locs k fuel ∧
      findNextStartAux starts locs k fuel ≤ max k locs ∧
      (findNextStartAux starts locs k fuel < locs →
        starts.getD (findNextStartAux starts locs k fuel) false = true) ∧
      (∀ m, k ≤ m → m < findNextStartAux starts locs k fuel →
        starts.getD m false = false)
  | 0, k, hf => by
      rw [findNextStartAux]
      exact ⟨le_refl k, le_max_left k locs, fun h => absurd h (by omega),
             fun m h1 h2 => absurd h2 (by omega)⟩
  | fuel + 1, k, hf => by
      rw [findNextStartAux]
      by_cases hk : k < locs
      · rw [if_pos hk]
        by_cases hs : starts.getD k false = true
        · rw [if_pos hs]
          exact ⟨le_refl k, le_max_left k locs, fun _ => hs,
                 fun m h1 h2 => absurd h2 (by omega)⟩
        · rw [if_neg hs]
          have hs' : starts.getD k false = false := by
            cases hv : starts.getD k false
            · rfl
            · exact absurd hv hs
          have ih := findNextStartAux_spec starts locs fuel (k + 1) (by omega)
          refine ⟨by omega, by omega, ih.2.2.1, fun m h1 h2 => ?_⟩
          by_cases hm : m = k
          · rw [hm]; exact hs'
          · exact ih.2.2.2 m (by omega) h2
      · rw [if_neg hk]
        exact ⟨le_refl k, le_max_left k locs, fun h => absurd h (by omega),
               fun m h1 h2 => absurd h2 (by omega)⟩

theorem clearRunAux_spec (stop : Nat) :
    ∀ (fuel : Nat) (l : List Bool) (h : Nat), h ≤ stop → stop ≤ h + fuel →
      ∃ e, h ≤ e ∧ e ≤ stop ∧
        (∀ t, t < h ∨ e ≤ t →
          (clearRunAux l stop h fuel).getD t false = l.getD t false) ∧
        (∀ t, h ≤ t → t < e → (clearRunAux l stop h fuel).getD t false = false) ∧
        (e = stop ∨ l.getD e false = false)
  | 0, l, h, hle, hf => by
      rw [clearRunAux]
      exact ⟨h, le_refl h, hle, fun t _ => rfl, fun t h1 h2 => absurd h2 (by omega),
             Or.inl (by omega)⟩
  | fuel + 1, l, h, hle, hf => by
      rw [clearRunAux]
      by_cases hc : h < stop ∧ l.getD h false = true
      · rw [if_pos hc]
        obtain ⟨e, he1, he2, hunch, hfalse, hlast⟩ :=
          clearRunAux_spec stop fuel (l.set h false) (h + 1) (by omega) (by omega)
        have hlen : h < l.length := lt_length_of_getD_true hc.2
        refine ⟨e, by omega, he2, fun t ht => ?_, fun t ht1 ht2 => ?_, ?_⟩
        · rw [hunch t (by omega)]
          exact getD_set_ne l h t false (by omega)
        · by_cases hth : t = h
          · rw [hth, hunch h (by omega)]
            exact getD_set_self l h false hlen
          · exact hfalse t (by omega) ht2
        · rcases hlast with h1 | h1
          · exact Or.inl h1
          · refine Or.inr ?_
            rw [getD_set_ne l h e false (by omega)] at h1
            exact h1
      · rw [if_neg hc]
        by_cases hh : h = stop
        · exact ⟨h, le_refl h, hle, fun t _ => rfl,
                 fun t h1 h2 => absurd h2 (by omega), Or.inl hh⟩
        · have : l.getD h false = false := by
            cases hl : l.getD h false with
            | false => rfl
            | true => exact absurd ⟨by omega, hl⟩ hc
          exact ⟨h, le_refl h, hle, fun t _ => rfl,
                 fun t h1 h2 => absurd h2 (by omega), Or.inr this⟩

theorem findStart_spec {starts : List Bool} {i : Nat} :
    ∀ (w : Nat), i < w → starts.getD i false = true →
      (∀ t, i < t → t < w → starts.getD t false = false) →
      findStart starts w = i + 1
  | 0, hi, _, _ => absurd hi (by omega)
  | w + 1, hi, hs, hfree => by
      rw [findStart]
      by_cases hw : starts.getD w false = true
      · rw [if_pos hw]
        have : w = i := by
          by_contra hne
          rw [hfree w (by omega) (by omega)] at hw
          exact Bool.false_ne_true hw
        omega
      · rw [if_neg hw]
        have hne : w ≠ i := fun e => hw (e ▸ hs)
        exact findStart_spec w (by omega) hs (fun t h1 h2 => hfree t h1 (by omega))

/-! Characterizations of `gpage.allocate` and `gpage.deallocate`. -/

theorem allocate_some_char (g : gpage) (sizeT alignT num p : Nat) (g' : gpage)
    (h : g.allocate sizeT alignT num = (some p, g')) :
    ∃ i, p = i * g.min_alloc ∧
      i + neededSlots g sizeT num ≤ g.locations ∧
      (∀ j, j < neededSlots g sizeT num → g.inuse.getD (i + j) false = false) ∧
      g' = { g with
               starts := g.starts.set i true
               inuse := setRange g.inuse i (neededSlots g sizeT num)
               current_known_request_bound :=
                 sub64 g.current_known_request_bound
                   (g.min_alloc * neededSlots g sizeT num) } := by
  have hN : (1 + (sizeT * num - 1) / g.min_alloc) + (if 1 < num then 1 else 0) =
      neededSlots g sizeT num := rfl
  simp only [gpage.allocate] at h
  split at h
  · exact absurd h (by simp)
  split at h
  · exact absurd h (by simp)
  split at h
  · exact absurd h (by simp)
  rename_i i heq
  rw [Prod.mk.injEq] at h
  obtain ⟨hp, hg⟩ := h
  rw [Option.some.injEq] at hp
  rw [hN] at heq hg
  have hsome := scanLoop_eq_some _ 0 i heq
  exact ⟨i, hp.symm, by omega, hsome.2.2, hg.symm⟩

theorem allocate_none_frame (g : gpage) (sizeT alignT num : Nat) (g' : gpage)
    (h : g.allocate sizeT alignT num = (none, g')) :
    g'.inuse = g.inuse ∧ g'.starts = g.starts ∧ g'.storage = g.storage ∧
    g'.total_size = g.total_size ∧ g'.min_alloc = g.min_alloc ∧
    g'.current_known_request_bound ≤ g.current_known_request_bound := by
  simp only [gpage.allocate] at h
  split at h
  · rw [Prod.mk.injEq] at h
    rw [← h.2]
    exact ⟨rfl, rfl, rfl, rfl, rfl, le_refl _⟩
  split at h
  · rw [Prod.mk.injEq] at h
    rw [← h.2]
    exact ⟨rfl, rfl, rfl, rfl, rfl, le_refl _⟩
  split at h
  · rw [Prod.mk.injEq] at h
    rw [← h.2]
    exact ⟨rfl, rfl, rfl, rfl, rfl, min_le_left _ _⟩
  · rw [Prod.mk.injEq] at h
    exact absurd h.1 (by simp)

theorem deallocate_def (g : gpage) (p : Nat) :
    g.deallocate p =
      { g with
          starts := g.starts.set (p / g.min_alloc) false
          current_known_request_bound :=
            max g.current_known_request_bound
              ((findNextStartAux (g.starts.set (p / g.min_alloc) false) g.locations
                  (p / g.min_alloc + 1) g.locations - p / g.min_alloc) * g.min_alloc)
          inuse :=
            clearRunAux g.inuse
              (findNextStartAux (g.starts.set (p / g.min_alloc) false) g.locations
                (p / g.min_alloc + 1) g.locations)
              (p / g.min_alloc)
              (findNextStartAux (g.starts.set (p / g.min_alloc) false) g.locations
                (p / g.min_alloc + 1) g.locations) } := rfl

/-! Claim theorems. -/

/-- C5: whenever the requested byte size `sizeof(T) * num` is strictly
greater than the current `current_known_request_bound`, `allocate` returns
null and leaves the page exactly unchanged.  The statement holds for every
page state, in particular for every value of the two bitmaps, so the result
is independent of them: the fast-reject path never reads `inuse` or
`starts`. -/
theorem c5_fast_reject (g : gpage) (sizeT alignT num : Nat)
    (h : g.current_known_request_bound < sizeT * num) :
    g.allocate sizeT alignT num = (none, g) := by
  simp only [gpage.allocate]
  rw [if_pos h]

/-- Witness for `c5_fast_reject`: on a fresh `gpage(16, 4)` (bound 16), a
request of 2 elements of 32 bytes (64 bytes) is rejected unchanged. -/
theorem c5_fast_reject_witness :
    (gpage.make 16 4 (fun _ => 0)).allocate 32 4 2 =
      (none, gpage.make 16 4 (fun _ => 0)) :=
  c5_fast_reject (gpage.make 16 4 (fun _ => 0)) 32 4 2 (by decide)

/-- C10: whenever `allocate` fails (returns null), the `inuse` bitmap, the
`starts` bitmap and the storage bytes are exactly as before the call, and
the bound cache is never increased (it is unchanged on the fast-reject and
alignment paths and shrunk by `min` on the scan-failure path). -/
theorem c10_failure_frame (g : gpage) (sizeT alignT num : Nat) (g' : gpage)
    (h : g.allocate sizeT alignT num = (none, g')) :
    g'.inuse = g.inuse ∧ g'.starts = g.starts ∧ g'.storage = g.storage ∧
    g'.current_known_request_bound ≤ g.current_known_request_bound := by
  obtain ⟨h1, h2, h3, _, _, h6⟩ := allocate_none_frame g sizeT alignT num g' h
  exact ⟨h1, h2, h3, h6⟩

/-- Witness for `c10_failure_frame`: a fast-rejected request of 8 elements
of 4 bytes on a fresh `gpage(16, 4)`. -/
theorem c10_failure_frame_witness :
    ((gpage.make 16 4 (fun _ => 0)).allocate 4 4 8).2.inuse =
        (gpage.make 16 4 (fun _ => 0)).inuse ∧
    ((gpage.make 16 4 (fun _ => 0)).allocate 4 4 8).2.starts =
        (gpage.make 16 4 (fun _ => 0)).starts ∧
    ((gpage.make 16 4 (fun _ => 0)).allocate 4 4 8).2.storage =
        (gpage.make 16 4 (fun _ => 0)).storage ∧
    ((gpage.make 16 4 (fun _ => 0)).allocate 4 4 8).2.current_known_request_bound ≤
        (gpage.make 16 4 (fun _ => 0)).current_known_request_bound :=
  c10_failure_frame (gpage.make 16 4 (fun _ => 0)) 4 4 8 _ rfl

set_option maxRecDepth 100000 in
/-- C9 counterexample: on `gpage(1024, 4)` the bitmaps do not have
`locations() = 256` entries each; the constructor sizes them with
`total_size = 1024` instead. -/
theorem c9_counterexample :
    ¬ ((gpage.make 1024 4 (fun _ => 0)).inuse.length =
         (gpage.make 1024 4 (fun _ => 0)).locations ∧
       (gpage.make 1024 4 (fun _ => 0)).starts.length =
         (gpage.make 1024 4 (fun _ => 0)).locations) := by
  decide

/-- C9 (amended): after construction each of the two bitmaps contains
exactly `total_size` entries — one per byte, not one per
`min_alloc`-sized slot.  (Only indices below `locations()` are ever used by
the algorithms.) -/
theorem c9_bitmap_lengths (ts ma : Nat) (mem : Nat → Nat) :
    (gpage.make ts ma mem).inuse.length = (gpage.make ts ma mem).total_size ∧
    (gpage.make ts ma mem).starts.length = (gpage.make ts ma mem).total_size := by
  constructor <;> simp [gpage.make]

set_option maxRecDepth 100000 in
/-- C1 counterexample: on a fresh `gpage(1024, 4)`, allocating one 8-byte
object succeeds with pointer offset 0, but `contains` at byte offset
`p + 1` (an interior byte of the object, `0 < 1 < 8`) reports
`in_range_allocated_start`, not `in_range_allocated_middle`: offset 1 still
lies in the allocation's first `min_alloc`-sized slot. -/
theorem c1_counterexample :
    ((gpage.make 1024 4 (fun _ => 0)).allocate 8 4 1).1 = some 0 ∧
    (((gpage.make 1024 4 (fun _ => 0)).allocate 8 4 1).2.contains 1).found =
      gpage_find_result.in_range_allocated_start := by
  decide

set_option maxRecDepth 100000 in
/-- C7 counterexample: after two adjacent single-slot allocations on
`gpage(16, 4)`, slots 0 and 1 form one maximal contiguous in-use run that
carries two start bits, so the claimed "exactly one start per maximal run"
invariant fails at an observable point. -/
theorem c7_counterexample : ¬ claimedRunInv page16AB := by
  decide

set_option maxRecDepth 100000 in
/-- C2 (failing run): on `gpage(1024, 4)` with slot 0 free and slot 1
occupied (obtained by two 4-byte allocations and deallocating the first),
an allocation with `alignof(T) = 8`, `sizeof(T) = 8` returns byte offset 12,
which is not 8-aligned: the skip-ahead `i += j` moved the scan off the
alignment-eligible candidate grid. -/
theorem c2_misaligned_pointer :
    (page1024Hole.allocate 8 8 1).1 = some 12 ∧ 12 % 8 = 4 := by
  decide

set_option maxRecDepth 100000 in
/-- C3 (failing run): on `gpage(16, 4)` (4 slots) with slot 0 free, slot 1
occupied and slots 2 and 3 free, an allocation with `alignof(T) = 8`,
`sizeof(T) = 8` (2 slots needed) fails, although the alignment-eligible
candidate at slot 2 (byte offset 8, 8-aligned) has both its slots free and
within bounds: the skip-ahead moved the scan past every remaining eligible
candidate. -/
theorem c3_first_fit_violated :
    (page16Hole.inuse.getD 2 false = false ∧ page16Hole.inuse.getD 3 false = false ∧
       2 * 4 % 8 = 0 ∧ 2 + 2 ≤ page16Hole.locations) ∧
    (page16Hole.allocate 8 8 1).1 = none := by
  decide

set_option maxRecDepth 100000 in
/-- C4 (failing run): on `gpage(16, 4)`, after two 4-byte allocations a
failed 6-byte array request tightens the bound cache to 5; a following
5-byte scalar request passes the fast-reject, succeeds at slot 2 and
subtracts `min_alloc * locations_needed = 8` from the bound cache of 5,
which wraps around to `2^64 - 3` — far above `total_size = 16`, violating
the claimed `[0, total_size]` interval. -/
theorem c4_bound_cache_overflow :
    page16Tight.current_known_request_bound = 5 ∧
    (page16Tight.allocate 5 1 1).1 = some 8 ∧
    (page16Tight.allocate 5 1 1).2.current_known_request_bound = 2 ^ 64 - 3 ∧
    (page16Tight.allocate 5 1 1).2.total_size <
      (page16Tight.allocate 5 1 1).2.current_known_request_bound := by
  decide

set_option maxRecDepth 100000 in
/-- C8: the spec's walked scenario on `gpage(1024, 4)`: allocating one
8-byte object (align 4) succeeds at byte offset 0 (`storage + 0`);
allocating an array of 10 objects of 4 bytes (align 4) succeeds at byte
offset 8, occupying 11 slots (10 data + 1 sentinel, slots 2 through 12)
immediately after the first allocation, with slot 13 still free; after
deallocating the first pointer, `contains` on its former address reports
`in_range_unallocated`. -/
theorem c8_scenario :
    scenarioStep1.1 = some 0 ∧
    scenarioStep2.1 = some 8 ∧
    ((List.range 11).all (fun j => scenarioStep2.2.inuse.getD (2 + j) false)) = true ∧
    scenarioStep2.2.starts.getD 2 false = true ∧
    scenarioStep2.2.inuse.getD 13 false = false ∧
    scenarioStep3.contains 0 = ⟨gpage_find_result.in_range_unallocated, 0, 0⟩ := by
  decide

theorem deallocate_bound_eq (g : gpage) (p : Nat) :
    (g.deallocate p).current_known_request_bound =
      max g.current_known_request_bound
        ((findNextStartAux (g.starts.set (p / g.min_alloc) false) g.locations
            (p / g.min_alloc + 1) g.locations - p / g.min_alloc) * g.min_alloc) := rfl

theorem deallocate_starts_eq (g : gpage) (p : Nat) :
    (g.deallocate p).starts = g.starts.set (p / g.min_alloc) false := rfl

theorem deallocate_inuse_eq (g : gpage) (p : Nat) :
    (g.deallocate p).inuse =
      clearRunAux g.inuse
        (findNextStartAux (g.starts.set (p / g.min_alloc) false) g.locations
          (p / g.min_alloc + 1) g.locations)
        (p / g.min_alloc)
        (findNextStartAux (g.starts.set (p / g.min_alloc) false) g.locations
          (p / g.min_alloc + 1) g.locations) := rfl

theorem deallocate_locations_eq (g : gpage) (p : Nat) :
    (g.deallocate p).locations = g.locations := rfl

/-- C6: for a valid deallocation of the pointer at slot `here`, with `n` the
index of the nearest later slot having `starts = true` (or the slot count if
none), `deallocate` sets the bound cache to
`max (previous bound) ((n - here) * min_alloc)`: the freed run is widened
over any free gap that follows it, up to the next allocation's start. -/
theorem c6_deallocate_bound (g : gpage) (here n : Nat)
    (hma : 1 ≤ g.min_alloc)
    (hhere : here < g.locations)
    (_hstart : g.starts.getD here false = true)
    (_hinuse : g.inuse.getD here false = true)
    (hnext : IsNextStart g.starts g.locations here n) :
    (g.deallocate (here * g.min_alloc)).current_known_request_bound =
      max g.current_known_request_bound ((n - here) * g.min_alloc) := by
  have hdiv : here * g.min_alloc / g.min_alloc = here :=
    Nat.mul_div_cancel here hma
  rw [deallocate_bound_eq, hdiv]
  have hspec := findNextStartAux_spec (g.starts.set here false) g.locations
    g.locations (here + 1) (by omega)
  generalize hF : findNextStartAux (g.starts.set here false) g.locations
    (here + 1) g.locations = F
  rw [hF] at hspec
  obtain ⟨hk0, hk1, hk2, hk3⟩ := hspec
  obtain ⟨hn1, hn2, hn3, hn4⟩ := hnext
  have hmx : max (here + 1) g.locations = g.locations := Nat.max_eq_right (by omega)
  have hFle : F ≤ g.locations := by rw [hmx] at hk1; exact hk1
  have hFn : F = n := by
    rcases Nat.lt_trichotomy F n with hlt | heq | hgt
    · exfalso
      have hx := hk2 (by omega)
      rw [getD_set_ne g.starts here F false (by omega)] at hx
      have hy := hn4 F hlt (by omega)
      rw [hy] at hx
      exact absurd hx (by simp)
    · exact heq
    · exfalso
      rcases hn3 with h1 | h1
      · omega
      · have hy := hk3 n (by omega) hgt
        rw [getD_set_ne g.starts here n false (by omega)] at hy
        rw [hy] at h1
        exact absurd h1 (by simp)
  rw [hFn]

/-- Witness for `c6_deallocate_bound`: a 4-slot page whose slot 0 holds a
one-slot allocation, slots 1 and 2 are free, and slot 3 starts another
allocation; deallocating slot 0 widens the bound cache to the combined
freed-plus-gap size `(3 - 0) * 4 = 12`, not just the allocation's own 4. -/
theorem c6_deallocate_bound_witness :
    ((⟨16, 4, fun _ => 0, [true, false, false, true], [true, false, false, true], 0⟩ :
        gpage).deallocate (0 * 4)).current_known_request_bound =
      max 0 ((3 - 0) * 4) :=
  c6_deallocate_bound
    (⟨16, 4, fun _ => 0, [true, false, false, true], [true, false, false, true], 0⟩ : gpage)
    0 3 (by decide) (by decide) (by decide) (by decide) (by decide)

/-- C7 (amended): the invariant the code actually maintains is weaker than
claimed: `starts ⇒ inuse` holds, and the first slot of every maximal
contiguous in-use run carries a start bit, but a maximal run may contain
further start bits where allocations are adjacent (see the counterexample).
This weaker invariant holds after construction and is preserved by every
`allocate` (success or failure) and every `deallocate`. -/
theorem c7_run_invariant :
    (∀ (ts ma : Nat) (mem : Nat → Nat), runInv (gpage.make ts ma mem)) ∧
    (∀ (g : gpage) (sizeT alignT num : Nat),
      1 ≤ g.min_alloc → g.inuse.length = g.total_size → g.starts.length = g.total_size →
      runInv g → runInv (g.allocate sizeT alignT num).2) ∧
    (∀ (g : gpage) (p : Nat), runInv g → runInv (g.deallocate p)) := by
  refine ⟨?_, ?_, ?_⟩
  · intro ts ma mem
    constructor
    · intro i _ hs
      have hf : (gpage.make ts ma mem).starts.getD i false = false :=
        getD_replicate_false _ i
      rw [hs] at hf
      exact absurd hf (by simp)
    · intro i _ hin _
      have hf : (gpage.make ts ma mem).inuse.getD i false = false :=
        getD_replicate_false _ i
      rw [hin] at hf
      exact absurd hf (by simp)
  · intro g sizeT alignT num hma hlu hls hinv
    rcases hres : g.allocate sizeT alignT num with ⟨po, g2⟩
    show runInv g2
    cases po with
    | none =>
      obtain ⟨hiu, hst, _, hts, hmi, _⟩ := allocate_none_frame g sizeT alignT num g2 hres
      have hloc : g2.locations = g.locations := by
        rw [gpage.locations, gpage.locations, hts, hmi]
      constructor
      · intro i hi hs
        rw [hst] at hs
        rw [hiu]
        rw [hloc] at hi
        exact hinv.1 i hi hs
      · intro i hi hin hcond
        rw [hiu] at hin hcond
        rw [hst]
        rw [hloc] at hi
        exact hinv.2 i hi hin hcond
    | some p =>
      obtain ⟨i, hp, hile, hfree, hg2⟩ := allocate_some_char g sizeT alignT num p g2 hres
      subst hg2
      have hNpos : 1 ≤ neededSlots g sizeT num := by
        rw [neededSlots]
        exact le_trans (Nat.le_add_right 1 _) (Nat.le_add_right _ _)
      have hlocle : g.locations ≤ g.total_size := Nat.div_le_self _ _
      unfold runInv
      dsimp only
      rw [gpage.locations] at hile hlocle
      unfold runInv at hinv
      rw [gpage.locations] at hinv
      refine ⟨fun t ht hs => ?_, fun t ht hin hcond => ?_⟩
      · by_cases hti : t = i
        · rw [hti]
          exact getD_setRange_in _ _ _ _ (le_refl i) (by omega) (by omega)
        · have hs' : g.starts.getD t false = true := by
            rwa [getD_set_ne g.starts i t true (Ne.symm hti)] at hs
          exact getD_setRange_true (hinv.1 t ht hs') i _
      · by_cases hti : t = i
        · rw [hti]
          exact getD_set_self g.starts i true (by omega)
        · by_cases hrange : i ≤ t ∧ t < i + neededSlots g sizeT num
          · exfalso
            have ht1 : (setRange g.inuse i (neededSlots g sizeT num)).getD (t - 1) false = true :=
              getD_setRange_in _ _ _ _ (by omega) (by omega) (by omega)
            rcases hcond with h0 | hprev
            · omega
            · rw [ht1] at hprev
              exact absurd hprev (by simp)
          · push_neg at hrange
            have hout : t < i ∨ i + neededSlots g sizeT num ≤ t := by
              rcases Nat.lt_or_ge t i with h | h
              · exact Or.inl h
              · exact Or.inr (hrange h)
            have hin' : g.inuse.getD t false = true := by
              rwa [getD_setRange_out _ _ _ _ hout] at hin
            have hcond' : t = 0 ∨ g.inuse.getD (t - 1) false = false := by
              rcases hcond with h0 | hprev
              · exact Or.inl h0
              · exact Or.inr (getD_setRange_false hprev)
            have hst := hinv.2 t ht hin' hcond'
            rw [getD_set_ne g.starts i t true (Ne.symm hti)]
            exact hst
  · intro g p hinv
    unfold runInv at hinv ⊢
    rw [deallocate_locations_eq, deallocate_starts_eq, deallocate_inuse_eq]
    generalize hHere : p / g.min_alloc = here
    generalize hF : findNextStartAux (g.starts.set here false) g.locations
      (here + 1) g.locations = F
    have hspec := findNextStartAux_spec (g.starts.set here false) g.locations
      g.locations (here + 1) (by omega)
    rw [hF] at hspec
    obtain ⟨hk0, hk1, hk2, hk3⟩ := hspec
    obtain ⟨e, he1, he2, hunch, hfalse, hlast⟩ :=
      clearRunAux_spec F F g.inuse here (by omega) (by omega)
    refine ⟨fun t ht hs => ?_, fun t ht hin hcond => ?_⟩
    · have hthere : t ≠ here := by
        intro he'
        rw [he'] at hs
        by_cases hlen : here < g.starts.length
        · rw [getD_set_self g.starts here false hlen] at hs
          exact absurd hs (by simp)
        · rw [getD_eq_false_of_len _ here (by rw [List.length_set]; omega)] at hs
          exact absurd hs (by simp)
      have hs' : g.starts.getD t false = true := by
        rwa [getD_set_ne g.starts here t false (Ne.symm hthere)] at hs
      have hin0 : g.inuse.getD t false = true := hinv.1 t ht hs'
      have htout : t < here ∨ e ≤ t := by
        by_contra hc
        push_neg at hc
        have hm := hk3 t (by omega) (by omega)
        rw [hm] at hs
        exact absurd hs (by simp)
      rw [hunch t htout]
      exact hin0
    · by_cases htin : here ≤ t ∧ t < e
      · exfalso
        have hf0 := hfalse t htin.1 htin.2
        rw [hf0] at hin
        exact absurd hin (by simp)
      · push_neg at htin
        have htout : t < here ∨ e ≤ t := by
          rcases Nat.lt_or_ge t here with h | h
          · exact Or.inl h
          · exact Or.inr (htin h)
        have hin0 : g.inuse.getD t false = true := by
          rwa [hunch t htout] at hin
        rcases htout with hlt | hge
        · have hcond' : t = 0 ∨ g.inuse.getD (t - 1) false = false := by
            rcases hcond with h0 | hprev
            · exact Or.inl h0
            · refine Or.inr ?_
              rwa [hunch (t - 1) (Or.inl (by omega))] at hprev
          have hst := hinv.2 t ht hin0 hcond'
          rw [getD_set_ne g.starts here t false (by omega)]
          exact hst
        · by_cases hteq : t = e
          · have hen0 : e = F := by
              rcases hlast with h1 | h1
              · exact h1
              · exfalso
                rw [hteq, h1] at hin0
                exact absurd hin0 (by simp)
            have hsF := hk2 (by omega)
            rw [hteq, hen0]
            exact hsF
          · have hcond' : t = 0 ∨ g.inuse.getD (t - 1) false = false := by
              rcases hcond with h0 | hprev
              · exact Or.inl h0
              · refine Or.inr ?_
                rwa [hunch (t - 1) (Or.inr (by omega))] at hprev
            have hst := hinv.2 t ht hin0 hcond'
            rw [getD_set_ne g.starts here t false (by omega)]
            exact hst

/-- Witness for `c7_run_invariant`: the invariant transported across a
concrete allocation and deallocation on `gpage(16, 4)`. -/
theorem c7_run_invariant_witness :
    runInv ((gpage.make 16 4 (fun _ => 0)).allocate 4 4 1).2 ∧
    runInv (((gpage.make 16 4 (fun _ => 0)).allocate 4 4 1).2.deallocate 0) := by
  have h1 : runInv ((gpage.make 16 4 (fun _ => 0)).allocate 4 4 1).2 :=
    c7_run_invariant.2.1 (gpage.make 16 4 (fun _ => 0)) 4 4 1 (by decide) (by decide)
      (by decide) (c7_run_invariant.1 16 4 (fun _ => 0))
  exact ⟨h1, c7_run_invariant.2.2 _ 0 h1⟩

theorem sub64_succ_one (s : Nat) (h : s + 1 < W64) : sub64 (s + 1) 1 = s := by
  unfold sub64
  rw [Nat.mod_eq_of_lt h, Nat.mod_eq_of_lt (show (1:Nat) < W64 by rw [W64]; norm_num)]
  rw [show W64 + (s + 1) - 1 = W64 + s by omega, Nat.add_mod_left]
  exact Nat.mod_eq_of_lt (by omega)

theorem contains_eval_start (g : gpage) (p w : Nat)
    (hw : p / g.min_alloc = w)
    (hrange : p + 1 < g.total_size)
    (hin : g.inuse.getD w false = true)
    (hst : g.starts.getD w false = true) :
    g.contains (p : Int) =
      ⟨gpage_find_result.in_range_allocated_start, w, w⟩ := by
  simp only [gpage.contains]
  rw [if_pos ⟨Int.natCast_nonneg p, by omega⟩]
  rw [Int.toNat_natCast, hw]
  rw [if_neg (by rw [hin]; exact fun h => absurd h (by simp))]
  rw [if_neg (by rw [hst]; exact fun h => absurd h (by simp))]

theorem contains_eval_middle (g : gpage) (p w s : Nat)
    (hw : p / g.min_alloc = w)
    (hrange : p + 1 < g.total_size)
    (hin : g.inuse.getD w false = true)
    (hst : g.starts.getD w false = false)
    (hfs : findStart g.starts w = s + 1)
    (hs64 : s + 1 < W64) :
    g.contains (p : Int) =
      ⟨gpage_find_result.in_range_allocated_middle, w, s⟩ := by
  simp only [gpage.contains]
  rw [if_pos ⟨Int.natCast_nonneg p, by omega⟩]
  rw [Int.toNat_natCast, hw]
  rw [if_neg (by rw [hin]; exact fun h => absurd h (by simp))]
  rw [if_pos hst, hfs, sub64_succ_one s hs64]

/-- C1 (amended): let `p` be the pointer returned by a successful allocate
of byte size `S = sizeof(T) * num` on a page satisfying `starts ⇒ inuse`.
Then `contains(p)` reports `in_range_allocated_start` — provided `p` is not
the page's last byte, which the `< &storage[total_size - 1]` range check
excludes; and for every byte offset `k` with `min_alloc ≤ k < S` whose
target is likewise below the last byte, `contains(p + k)` reports
`in_range_allocated_middle` with `start_location` equal to `p`'s slot
index.  (For `0 < k < min_alloc`, `p + k` lies in `p`'s own slot and
`contains` reports `in_range_allocated_start` instead — see the
counterexample.) -/
theorem c1_contains_after_allocate (g g' : gpage) (sizeT alignT num p : Nat)
    (hma : 1 ≤ g.min_alloc)
    (hts : g.total_size < W64)
    (hlu : g.inuse.length = g.total_size)
    (hls : g.starts.length = g.total_size)
    (hinv : ∀ t, t < g.locations → g.starts.getD t false = true →
      g.inuse.getD t false = true)
    (halloc : g.allocate sizeT alignT num = (some p, g')) :
    (p + 1 < g.total_size →
      g'.contains (p : Int) =
        ⟨gpage_find_result.in_range_allocated_start, p / g.min_alloc, p / g.min_alloc⟩) ∧
    (∀ k, g.min_alloc ≤ k → k < sizeT * num → p + k + 1 < g.total_size →
      g'.contains ((p + k : Nat) : Int) =
        ⟨gpage_find_result.in_range_allocated_middle,
          (p + k) / g.min_alloc, p / g.min_alloc⟩) := by
  obtain ⟨i, hp, hile, hfree, hg'⟩ := allocate_some_char g sizeT alignT num p g' halloc
  subst hg'
  subst hp
  have hNpos : 1 ≤ neededSlots g sizeT num := by
    rw [neededSlots]
    exact le_trans (Nat.le_add_right 1 _) (Nat.le_add_right _ _)
  have hlocle : g.locations ≤ g.total_size := Nat.div_le_self _ _
  have hidiv : i * g.min_alloc / g.min_alloc = i := Nat.mul_div_cancel i hma
  have hilt : i < g.locations := by omega
  constructor
  · intro hplt
    rw [hidiv]
    exact contains_eval_start _ (i * g.min_alloc) i hidiv hplt
      (getD_setRange_in _ _ _ _ (le_refl i) (by omega) (by omega))
      (getD_set_self g.starts i true (by omega))
  · intro k hk1 hk2 hk3
    have hd1 : 1 ≤ k / g.min_alloc := (Nat.one_le_div_iff hma).mpr hk1
    have hwdiv : (i * g.min_alloc + k) / g.min_alloc = i + k / g.min_alloc := by
      rw [Nat.add_comm (i * g.min_alloc) k, Nat.add_mul_div_right k i hma]
      omega
    have hdlt : k / g.min_alloc < neededSlots g sizeT num := by
      have h1 : k / g.min_alloc ≤ (sizeT * num - 1) / g.min_alloc :=
        Nat.div_le_div_right (by omega)
      have h2 : 1 + (sizeT * num - 1) / g.min_alloc ≤ neededSlots g sizeT num := by
        rw [neededSlots]
        exact Nat.le_add_right _ _
      omega
    have hstfalse : ∀ t, i < t → t < i + neededSlots g sizeT num →
        g.starts.getD t false = false := by
      intro t ht1 ht2
      cases hss : g.starts.getD t false with
      | false => rfl
      | true =>
        have := hinv t (by omega) hss
        have hfr := hfree (t - i) (by omega)
        rw [show i + (t - i) = t by omega] at hfr
        rw [hfr] at this
        exact absurd this (by simp)
    rw [hidiv, hwdiv]
    refine contains_eval_middle _ (i * g.min_alloc + k) (i + k / g.min_alloc) i hwdiv hk3
      ?_ ?_ ?_ (by omega)
    · exact getD_setRange_in _ _ _ _ (by omega) (by omega) (by omega)
    · rw [getD_set_ne g.starts i (i + k / g.min_alloc) true (by omega)]
      exact hstfalse (i + k / g.min_alloc) (by omega) (by omega)
    · apply findStart_spec (i + k / g.min_alloc) (by omega)
      · exact getD_set_self g.starts i true (by omega)
      · intro t ht1 ht2
        rw [getD_set_ne g.starts i t true (by omega)]
        exact hstfalse t ht1 (by omega)

/-- Witness for `c1_contains_after_allocate`: on a fresh `gpage(16, 4)`, an
8-byte allocation at offset 0; `contains` at interior offset `k = 4` (the
second slot) reports `in_range_allocated_middle` with start slot 0. -/
theorem c1_contains_after_allocate_witness :
    (((gpage.make 16 4 (fun _ => 0)).allocate 8 4 1).2.contains ((0 + 4 : Nat) : Int) =
      ⟨gpage_find_result.in_range_allocated_middle, (0 + 4) / 4, 0 / 4⟩) := by
  have h := c1_contains_after_allocate (gpage.make 16 4 (fun _ => 0))
    ((gpage.make 16 4 (fun _ => 0)).allocate 8 4 1).2 8 4 1 0
    (by decide) (by decide) (by decide) (by decide) (by decide) rfl
  exact h.2 4 (by decide) (by decide) (by decide)
